import Mathlib

/-!
# SentinelDB core: shallow embedding and verification

This file embeds the core of SentinelDB — a temporal key-value store with a
guard/policy write-negotiation pipeline and a WAL-based durability layer — as
executable Lean definitions, translated from the C++ sources
(`kvstore.cpp`, `guard.cpp`, `wal.cpp`, `kvstore.h`, `guard.h`, `wal.h`, and
the recovery code in `main.cpp`), and proves properties of those definitions.

Modelling conventions:
* Timestamps are integers in epoch milliseconds (the resolution at which the
  engine logs and replays them; `std::chrono` sub-millisecond precision is
  below the model's resolution).
* The in-memory map `std::unordered_map<std::string, std::vector<Version>>`
  is modelled as a function `String → List Version`, with an absent key
  identified with the empty version list.  Every operation modelled here
  treats an absent key and an empty list identically (and in the states the
  theorems quantify over, a key held by the map always has a non-empty list).
* The WAL file is modelled as the list of records it holds.  One text line
  corresponds to one record; this is exact because keys and values contain
  no whitespace (a hard constraint of the on-disk format).
* I/O failure of a single stream write (the `catch` branches in `wal.cpp`)
  is modelled by an explicit `ioFault` flag passed to the logging functions.
* Strings are compared and transformed character-wise; for the ASCII data the
  engine handles this coincides with the byte-wise C++ operations.
-/

namespace SentinelDB

/-- The `Status` return codes, as used by `kvstore.cpp` / `wal.cpp`
(`Status::OK`, `Status::ERROR`, `Status::NOT_FOUND`). -/
inductive Status where
  | ok
  | error
  | notFound
deriving DecidableEq, Repr

/-- One timestamped value for one key (`struct Version` in `kvstore.h`).
Timestamps are epoch milliseconds. -/
structure Version where
  timestamp : Int
  value : String
deriving DecidableEq, Repr

/-- The per-key version map of `KVStore`; an absent key is identified with
the empty list (see the header comment). -/
abbrev Store := String → List Version

/-- Retention policy modes (`enum class RetentionMode` in `kvstore.h`). -/
inductive RetentionMode where
  | full
  | lastN
  | lastT
deriving DecidableEq, Repr

/-- Retention policy configuration (`struct RetentionPolicy` in `kvstore.h`).
`count` is used by `lastN`, `seconds` by `lastT`; both are C++ `int`s. -/
structure RetentionPolicy where
  mode : RetentionMode
  count : Int
  seconds : Int
deriving DecidableEq, Repr

/-- The default-constructed retention policy: keep all versions. -/
def RetentionPolicy.init : RetentionPolicy := ⟨.full, 0, 0⟩

/-- The `KVStore::applyRetention`, as a function on one key's version list.
`now` is the value of `std::chrono::system_clock::now()` read inside the
`LAST_T` branch, in epoch milliseconds (the cutoff `now - seconds` subtracts
`seconds` seconds, i.e. `1000 * seconds` milliseconds). -/
def applyRetentionList (pol : RetentionPolicy) (now : Int) (versions : List Version) :
    List Version :=
  match pol.mode with
  | .full => versions
  | .lastN =>
      -- keep only the last `count` versions: erase from the beginning
      if 0 < pol.count ∧ pol.count.toNat < versions.length then
        versions.drop (versions.length - pol.count.toNat)
      else versions
  | .lastT =>
      -- drop every leading version older than the cutoff; `find_if` locates
      -- the first version with `timestamp >= cutoff` and everything before
      -- it is erased, which is exactly `dropWhile (timestamp < cutoff)`
      if 0 < pol.seconds then
        versions.dropWhile (fun v => decide (v.timestamp < now - 1000 * pol.seconds))
      else versions

/-- Point update of the store map (`store[key] = l`). -/
def storeSet (s : Store) (key : String) (l : List Version) : Store :=
  fun k => if k = key then l else s k

/-- The loop of `KVStore::getAtTime`: scan versions in order, remembering the
value of each version with `timestamp ≤ t`, and break at the first version
with `timestamp > t`. -/
def getAtLoop (t : Int) : List Version → Option String → Option String
  | [], result => result
  | v :: rest, result =>
      if v.timestamp ≤ t then getAtLoop t rest (some v.value) else result

/-- The indexed loop of `KVStore::explainGetAtTime`: returns the selected
(index, version) pair, if any, together with the accumulated skipped
versions.  When a version with `timestamp ≤ t` is found and a version was
already selected, the previously selected version moves to the skipped list;
the first version with `timestamp > t` stops the scan. -/
def explainScan (t : Int) :
    List Version → Nat → Option (Nat × Version) → List Version →
    Option (Nat × Version) × List Version
  | [], _, sel, skipped => (sel, skipped)
  | v :: rest, i, sel, skipped =>
      if v.timestamp ≤ t then
        match sel with
        | some (_, prev) => explainScan t rest (i + 1) (some (i, v)) (skipped ++ [prev])
        | none => explainScan t rest (i + 1) (some (i, v)) skipped
      else (sel, skipped)

/-- Explain result for temporal queries (`struct ExplainResult` in
`kvstore.h`). -/
structure ExplainResult where
  found : Bool
  key : String
  queryTimestamp : Int
  selectedVersion : Option Version
  reasoning : String
  skippedVersions : List Version
  totalVersions : Nat
deriving DecidableEq, Repr

/-- WAL records.  One record corresponds to one line of the append-only text
file: `SET <key> <value> <epochMillis>`, `DEL <key>`, or
`POLICY SET <name>` (keys and values are whitespace-free, so the line ↔
record correspondence is exact). -/
inductive WalRecord where
  | set (key value : String) (epochMs : Int)
  | del (key : String)
  | policy (name : String)
deriving DecidableEq, Repr

/-- WAL state (`class WAL` in `wal.h`): the `enabled` flag, whether the
backing `std::ofstream` is open, and the records currently in the file. -/
structure WALState where
  enabled : Bool
  fileOpen : Bool
  records : List WalRecord
deriving DecidableEq, Repr

/-- The `WAL::logSet`.  `ioFault` models the stream write throwing: the catch
branch prints a warning and returns `Status::ERROR` without touching any
field of the WAL (in particular `enabled` is not changed). -/
def WALState.logSet (w : WALState) (ioFault : Bool) (key value : String)
    (epochMs : Int) : Status × WALState :=
  if ¬w.enabled ∨ ¬w.fileOpen then (.error, w)
  else if ioFault then (.error, w)
  else (.ok, { w with records := w.records ++ [.set key value epochMs] })

/-- The `WAL::logDel`; same failure discipline as `WAL::logSet`. -/
def WALState.logDel (w : WALState) (ioFault : Bool) (key : String) :
    Status × WALState :=
  if ¬w.enabled ∨ ¬w.fileOpen then (.error, w)
  else if ioFault then (.error, w)
  else (.ok, { w with records := w.records ++ [.del key] })

/-- The `WAL::logPolicy`; same failure discipline as `WAL::logSet`. -/
def WALState.logPolicy (w : WALState) (ioFault : Bool) (name : String) :
    Status × WALState :=
  if ¬w.enabled ∨ ¬w.fileOpen then (.error, w)
  else if ioFault then (.error, w)
  else (.ok, { w with records := w.records ++ [.policy name] })

/-- Decision policy for handling guard violations (`enum class
DecisionPolicy` in `guard.h`). -/
inductive DecisionPolicy where
  | devFriendly
  | safeDefault
  | strict
deriving DecidableEq, Repr

/-- The WAL name of a decision policy, as written by
`KVStore::setDecisionPolicy`. -/
def policyName : DecisionPolicy → String
  | .devFriendly => "DEV_FRIENDLY"
  | .safeDefault => "SAFE_DEFAULT"
  | .strict => "STRICT"

/-- Parsing of a policy name during replay (`main.cpp`); an unknown name
yields `none` and the record is skipped. -/
def parsePolicy (name : String) : Option DecisionPolicy :=
  if name = "DEV_FRIENDLY" then some .devFriendly
  else if name = "SAFE_DEFAULT" then some .safeDefault
  else if name = "STRICT" then some .strict
  else none

/-- Result of guard evaluation (`enum class GuardResult` in `guard.h`). -/
inductive GuardResult where
  | accept
  | reject
  | counterOffer
deriving DecidableEq, Repr

/-- Alternative value with explanation (`struct Alternative` in `guard.h`). -/
structure Alternative where
  value : String
  explanation : String
deriving DecidableEq, Repr

/-- Result of write evaluation (`struct WriteEvaluation` in `guard.h`). -/
structure WriteEvaluation where
  result : GuardResult
  key : String
  proposedValue : String
  reason : String
  alternatives : List Alternative
  triggeredGuards : List String
  appliedPolicy : DecisionPolicy
  policyReasoning : String
deriving DecidableEq, Repr

/-- The variant data of the three concrete guard classes of `guard.cpp`
(`RangeIntGuard`, `EnumGuard`, `LengthGuard`).  The C++ uses runtime
polymorphism over an abstract base; the concrete subclasses are a closed
set, embedded here as a sum. -/
inductive GuardVariant where
  | rangeInt (minValue maxValue : Int)
  | enumValues (allowed : List String)
  | lengthRange (minLength maxLength : Nat)
deriving DecidableEq, Repr

/-- A guard constraint (`class Guard` in `guard.h`): name, key pattern,
enabled flag, and variant data. -/
structure Guard where
  name : String
  key : String
  enabled : Bool
  variant : GuardVariant
deriving DecidableEq, Repr

/-- The `Guard::appliesTo`: `*` matches everything, an exact match succeeds, and
a trailing-`*` pattern matches by prefix.  (The C++ reads `key.back()` and
so assumes a non-empty pattern; `String.endsWith` on the empty pattern is
`false`, matching every defined case.) -/
def Guard.appliesTo (g : Guard) (targetKey : String) : Bool :=
  if g.key = "*" then true
  else if g.key = targetKey then true
  else if g.key.endsWith "*" then (g.key.dropRight 1).data.isPrefixOf targetKey.data
  else false

/-- The `std::stoi` on the proposed value, returning `none` where the C++
throws: leading whitespace is skipped, an optional sign is consumed, the
leading run of decimal digits is converted (trailing junk is ignored),
no digits at all throws `invalid_argument`, and a converted value outside
the `int` range throws `out_of_range`. -/
def stoi? (s : String) : Option Int :=
  let cs := s.data.dropWhile Char.isWhitespace
  let signed : Bool × List Char :=
    match cs with
    | '-' :: rest => (true, rest)
    | '+' :: rest => (false, rest)
    | _ => (false, cs)
  let ds := signed.2.takeWhile Char.isDigit
  if ds.isEmpty then none
  else
    let mag : Int := ds.foldl (fun acc c => acc * 10 + (c.toNat - 48 : Int)) 0
    let n : Int := if signed.1 then -mag else mag
    if n < -2147483648 ∨ 2147483647 < n then none else some n

/-- ASCII-wise lower-casing, as done character by character with
`::tolower` in `guard.cpp`. -/
def lowerStr (s : String) : String := String.mk (s.data.map Char.toLower)

/-- The `haystack.find(needle) != std::string::npos`: substring containment. -/
def strContains (haystack needle : String) : Bool :=
  decide (needle.data <:+: haystack.data)

/-- The `std::string::substr(0, n)` (character-wise). -/
def strTake (s : String) (n : Nat) : String := String.mk (s.data.take n)

/-- The `Guard::evaluate` of the three concrete guards (`guard.cpp`), returning
the verdict together with the reason string written through the out
parameter. -/
def Guard.evaluate (g : Guard) (proposedValue : String) : GuardResult × String :=
  match g.variant with
  | .rangeInt minValue maxValue =>
      match stoi? proposedValue with
      | none => (.reject, "Value is not a valid integer")
      | some value =>
          if minValue ≤ value ∧ value ≤ maxValue then
            (.accept, "Value within acceptable range [" ++ toString minValue ++
              ", " ++ toString maxValue ++ "]")
          else
            (.counterOffer, "Value " ++ toString value ++
              " outside acceptable range [" ++ toString minValue ++ ", " ++
              toString maxValue ++ "]")
  | .enumValues allowed =>
      if proposedValue ∈ allowed then (.accept, "Value is in allowed set")
      else
        (.counterOffer, "Value '" ++ proposedValue ++ "' not in allowed set: \x7b" ++
          String.intercalate ", " (allowed.map (fun a => "'" ++ a ++ "'")) ++ "\x7d")
  | .lengthRange minLength maxLength =>
      let len := proposedValue.length
      if minLength ≤ len ∧ len ≤ maxLength then
        (.accept, "Length " ++ toString len ++ " within acceptable range [" ++
          toString minLength ++ ", " ++ toString maxLength ++ "]")
      else
        (.counterOffer, "Length " ++ toString len ++
          " outside acceptable range [" ++ toString minLength ++ ", " ++
          toString maxLength ++ "]")

/-- The `Guard::generateAlternatives` of the three concrete guards
(`guard.cpp`).  Integer division is C++ `int` division (truncation toward
zero), `Int.div`. -/
def Guard.generateAlternatives (g : Guard) (proposedValue : String) :
    List Alternative :=
  match g.variant with
  | .rangeInt minValue maxValue =>
      match stoi? proposedValue with
      | some value =>
          if value < minValue then
            ⟨toString minValue,
              "Minimum allowed value (proposed " ++ toString value ++ " is too low)"⟩ ::
            (if minValue < maxValue then
              [⟨toString (minValue + (maxValue - minValue).tdiv 4),
                "Conservative value within range"⟩]
             else [])
          else if maxValue < value then
            ⟨toString maxValue,
              "Maximum allowed value (proposed " ++ toString value ++ " is too high)"⟩ ::
            (if minValue < maxValue then
              [⟨toString (maxValue - (maxValue - minValue).tdiv 4),
                "Conservative value within range"⟩]
             else [])
          else []
      | none =>
          [⟨toString minValue, "Minimum allowed value"⟩,
           ⟨toString ((minValue + maxValue).tdiv 2), "Midpoint value"⟩,
           ⟨toString maxValue, "Maximum allowed value"⟩]
  | .enumValues allowed =>
      let lowerProposed := lowerStr proposedValue
      -- first, exact case-insensitive matches
      let pass1 := allowed.foldl
        (fun acc a =>
          if lowerStr a = lowerProposed then
            acc ++ [⟨a, "Case-corrected version of proposed value"⟩]
          else acc)
        []
      -- then partial (substring, either direction) matches, skipping values
      -- already present among the alternatives collected so far
      let pass2 := allowed.foldl
        (fun acc a =>
          if strContains (lowerStr a) lowerProposed ∨
             strContains lowerProposed (lowerStr a) then
            if acc.any (fun alt => alt.value == a) then acc
            else acc ++ [⟨a, "Similar to proposed value"⟩]
          else acc)
        pass1
      -- if no matches were found, suggest the first min(3, |allowed|) values
      if pass2.isEmpty then
        (allowed.take (min 3 allowed.length)).map (fun a => ⟨a, "Allowed value"⟩)
      else pass2
  | .lengthRange minLength maxLength =>
      let len := proposedValue.length
      if len < minLength then
        [⟨proposedValue ++ String.mk (List.replicate (minLength - len) '*'),
          "Padded to minimum length " ++ toString minLength⟩]
      else if maxLength < len then
        ⟨strTake proposedValue maxLength,
          "Truncated to maximum length " ++ toString maxLength⟩ ::
        (if 5 < maxLength then
          [⟨strTake proposedValue (maxLength * 4 / 5),
            "Truncated to " ++ toString (maxLength * 4 / 5) ++
            " characters (safer margin)"⟩]
         else [])
      else []

/-- The engine state (`class KVStore` in `kvstore.h`): version map, WAL,
the `walEnabled` replay toggle, retention policy, guard list and decision
policy.  The C++ holds the WAL through a possibly-null shared pointer; a
null WAL behaves exactly like one with `enabled = false`, which is how it is
represented here. -/
structure KVStore where
  store : Store
  wal : WALState
  walEnabled : Bool
  retentionPolicy : RetentionPolicy
  guards : List Guard
  decisionPolicy : DecisionPolicy

/-- The freshly constructed engine (`KVStore::KVStore` with an initialized
WAL): empty map, WAL enabled with an open file holding `recs`, default
retention (`FULL`), no guards, and the default `SAFE_DEFAULT` policy. -/
def KVStore.fresh (recs : List WalRecord) : KVStore :=
  { store := fun _ => []
    wal := ⟨true, true, recs⟩
    walEnabled := true
    retentionPolicy := .init
    guards := []
    decisionPolicy := .safeDefault }

/-- The `KVStore::applyRetention` on one key: no-op when the key is absent or
has no versions, otherwise the list transformation `applyRetentionList`.
`now` is the clock value read by the `LAST_T` branch. -/
def KVStore.applyRetention (e : KVStore) (now : Int) (key : String) : KVStore :=
  if (e.store key).isEmpty then e
  else { e with store := storeSet e.store key
                  (applyRetentionList e.retentionPolicy now (e.store key)) }

/-- The `KVStore::set`: stamp with the current time `now`, write the WAL record
first if logging is on (a failed write — `ioFault` — is ignored), append the
version, run retention, return OK. -/
def KVStore.set (e : KVStore) (ioFault : Bool) (now : Int) (key value : String) :
    Status × KVStore :=
  let e1 := if e.walEnabled ∧ e.wal.enabled then
              { e with wal := (e.wal.logSet ioFault key value now).2 }
            else e
  let e2 := { e1 with store := storeSet e1.store key (e1.store key ++ [(⟨now, value⟩ : Version)]) }
  (.ok, e2.applyRetention now key)

/-- The `KVStore::setAtTime` (the replay entry point): append a version with the
caller-supplied timestamp, no WAL write, run retention.  `now` is the clock
that retention would read in `LAST_T` mode. -/
def KVStore.setAtTime (e : KVStore) (key value : String) (timestamp now : Int) :
    Status × KVStore :=
  let e2 := { e with store := storeSet e.store key (e.store key ++ [(⟨timestamp, value⟩ : Version)]) }
  (.ok, e2.applyRetention now key)

/-- The `KVStore::get`: the value of the last version of the key, or absent. -/
def KVStore.get (e : KVStore) (key : String) : Option String :=
  match (e.store key).getLast? with
  | some v => some v.value
  | none => none

/-- The `KVStore::del`: if the key is present, write the WAL record (failures
ignored) and erase all versions, returning OK; otherwise NOT_FOUND. -/
def KVStore.del (e : KVStore) (ioFault : Bool) (key : String) : Status × KVStore :=
  if (e.store key).isEmpty then (.notFound, e)
  else
    let e1 := if e.walEnabled ∧ e.wal.enabled then
                { e with wal := (e.wal.logDel ioFault key).2 }
              else e
    (.ok, { e1 with store := storeSet e1.store key [] })

/-- The `KVStore::getAtTime`: absent key (or empty history) answers absent;
otherwise the scan `getAtLoop` starting from no result. -/
def KVStore.getAtTime (e : KVStore) (key : String) (t : Int) : Option String :=
  if (e.store key).isEmpty then none
  else getAtLoop t (e.store key) none

/-- The reasoning text built by `KVStore::explainGetAtTime` in the found
case, from the selected index, the total count, the number of skipped older
versions and the number of versions after the query time. -/
def explainReasoning (idx total skipped after : Nat) : String :=
  "Selected version at index " ++ toString idx ++ " (0-based) out of " ++
  toString total ++ " total versions. " ++
  "This is the most recent version at or before the query timestamp." ++
  (if skipped ≠ 0 then
    " Skipped " ++ toString skipped ++ " older version(s) that were also valid but superseded."
   else "") ++
  (if after ≠ 0 then
    " Excluded " ++ toString after ++ " version(s) that occurred after the query timestamp."
   else "")

/-- The `KVStore::explainGetAtTime`: deterministic reconstruction of the
`getAtTime` selection decision. -/
def KVStore.explainGetAtTime (e : KVStore) (key : String) (t : Int) : ExplainResult :=
  if (e.store key).isEmpty then
    { found := false, key := key, queryTimestamp := t, selectedVersion := none
      reasoning := "Key not found in database", skippedVersions := [], totalVersions := 0 }
  else
    let versions := e.store key
    let scan := explainScan t versions 0 none []
    match scan.1 with
    | some (idx, v) =>
        { found := true, key := key, queryTimestamp := t, selectedVersion := some v
          reasoning := explainReasoning idx versions.length scan.2.length
            (versions.length - idx - 1)
          skippedVersions := scan.2, totalVersions := versions.length }
    | none =>
        { found := false, key := key, queryTimestamp := t, selectedVersion := none
          reasoning := "No version found at or before the query timestamp. All " ++
            toString versions.length ++ " version(s) occurred after the query time."
          skippedVersions := scan.2, totalVersions := versions.length }

/-- The `KVStore::getHistory`: all versions of a key (empty if absent). -/
def KVStore.getHistory (e : KVStore) (key : String) : List Version := e.store key

/-- The `KVStore::setWalEnabled`. -/
def KVStore.setWalEnabled (e : KVStore) (enabled : Bool) : KVStore :=
  { e with walEnabled := enabled }

/-- The `KVStore::setRetentionPolicy`: store the policy and eagerly re-apply it
to every existing key.  (The C++ iterates the keys of the map; on a function
store this is the pointwise application, identical on absent keys because
retention of an empty list is the list itself.) -/
def KVStore.setRetentionPolicy (e : KVStore) (pol : RetentionPolicy) (now : Int) :
    KVStore :=
  { e with retentionPolicy := pol
           store := fun k => applyRetentionList pol now (e.store k) }

/-- The `KVStore::getGuardsForKey`: the enabled guards whose pattern matches the
key, in registration order. -/
def KVStore.getGuardsForKey (e : KVStore) (key : String) : List Guard :=
  e.guards.filter (fun g => g.enabled && g.appliesTo key)

/-- The `KVStore::addGuard`. -/
def KVStore.addGuard (e : KVStore) (g : Guard) : KVStore :=
  { e with guards := e.guards ++ [g] }

/-- The default-constructed `WriteEvaluation` with `key`/`proposedValue`
filled in, as at the top of `KVStore::simulateWrite`. -/
def initEval (key value : String) : WriteEvaluation :=
  { result := .accept, key := key, proposedValue := value, reason := ""
    alternatives := [], triggeredGuards := [], appliedPolicy := .safeDefault
    policyReasoning := "" }

/-- The duplicate-avoiding collection of one guard's alternatives into the
running list (`collectedAlternatives` in `KVStore::simulateWrite`): an
alternative is appended unless one with the same value is already present. -/
def addAlternatives (collected : List Alternative) (alts : List Alternative) :
    List Alternative :=
  alts.foldl
    (fun acc alt => if acc.any (fun ex => ex.value == alt.value) then acc
                    else acc ++ [alt])
    collected

/-- The guard loop of `KVStore::simulateWrite`.  A rejecting guard stops the
loop at once: the verdict becomes REJECT, the guard's name is pushed onto
`triggeredGuards` (after any names pushed by earlier counter-offering
guards), the reason is overwritten with that guard's reason, and the
collected alternatives are discarded.  A counter-offering guard records its
name, merges its alternatives and joins its reason with `"; "`.  After the
loop, any counter-offer makes the combined verdict COUNTER_OFFER with the
collected alternatives; otherwise everything was accepted. -/
def simLoop (value : String) :
    List Guard → WriteEvaluation → Bool → List Alternative → WriteEvaluation
  | [], ev, allAccepted, collected =>
      if ¬allAccepted then { ev with result := .counterOffer, alternatives := collected }
      else { ev with reason := "All guards passed" }
  | g :: rest, ev, allAccepted, collected =>
      let res := g.evaluate value
      match res.1 with
      | .reject =>
          { ev with result := .reject
                    triggeredGuards := ev.triggeredGuards ++ [g.name]
                    reason := res.2 }
      | .counterOffer =>
          let collected2 := addAlternatives collected (g.generateAlternatives value)
          simLoop value rest
            { ev with triggeredGuards := ev.triggeredGuards ++ [g.name]
                      reason := if ev.reason = "" then res.2
                                else ev.reason ++ "; " ++ res.2 }
            false collected2
      | .accept => simLoop value rest ev allAccepted collected

/-- The `KVStore::simulateWrite`: evaluate the applicable enabled guards against
the proposed value. -/
def KVStore.simulateWrite (e : KVStore) (key value : String) : WriteEvaluation :=
  let applicable := e.getGuardsForKey key
  if applicable.isEmpty then
    { initEval key value with reason := "No guards defined for this key" }
  else simLoop value applicable (initEval key value) true []

/-- The `KVStore::applyDecisionPolicy`: transform a simulation outcome according
to the engine's current decision policy (functional version of the in-place
mutation of the evaluation). -/
def KVStore.applyDecisionPolicy (e : KVStore) (ev0 : WriteEvaluation) :
    WriteEvaluation :=
  let ev := { ev0 with appliedPolicy := e.decisionPolicy }
  if ev.result = .accept then
    { ev with policyReasoning := "No policy applied - all guards passed" }
  else
    match e.decisionPolicy with
    | .strict =>
        if ev.result = .counterOffer then
          { ev with result := .reject
                    policyReasoning := "Rejected under STRICT policy due to guard violation"
                    alternatives := [] }
        else
          { ev with policyReasoning := "Rejected under STRICT policy due to guard violation" }
    | .devFriendly =>
        if ev.result = .reject then
          { ev with policyReasoning := "Rejected under DEV_FRIENDLY policy - value cannot be salvaged" }
        else if ev.result = .counterOffer then
          { ev with policyReasoning := "Counter-offer under DEV_FRIENDLY policy - showing alternatives" }
        else ev
    | .safeDefault =>
        if ev.result = .counterOffer then
          if ev.alternatives.isEmpty then
            { ev with result := .reject
                      policyReasoning := "Rejected under SAFE_DEFAULT policy - no safe alternatives available" }
          else
            { ev with policyReasoning := "Counter-offer under SAFE_DEFAULT policy - safe alternatives available" }
        else if ev.result = .reject then
          { ev with policyReasoning := "Rejected under SAFE_DEFAULT policy - critical violation" }
        else ev

/-- The `KVStore::proposeSet`: simulate, then apply the decision policy; the
method reads no clock and writes no field of the engine.  To make both
facts statable, the ambient clock is passed as the (unused) argument
`clock`, and the unchanged engine is returned alongside the evaluation. -/
def KVStore.proposeSet (e : KVStore) (clock : Int) (key value : String) :
    WriteEvaluation × KVStore :=
  let _ := clock
  (e.applyDecisionPolicy (e.simulateWrite key value), e)

/-- The `KVStore::commitSet`: direct commit, bypassing guards. -/
def KVStore.commitSet (e : KVStore) (ioFault : Bool) (now : Int)
    (key value : String) : Status × KVStore :=
  e.set ioFault now key value

/-- The `KVStore::setDecisionPolicy`: update the policy, then (iff logging is
on) append the `POLICY SET <name>` record. -/
def KVStore.setDecisionPolicy (e : KVStore) (ioFault : Bool) (p : DecisionPolicy) :
    KVStore :=
  let e1 := { e with decisionPolicy := p }
  if e1.walEnabled ∧ e1.wal.enabled then
    { e1 with wal := (e1.wal.logPolicy ioFault (policyName p)).2 }
  else e1

/-! ## Operation sequences and recovery

The recovery coordinator lives in `main()`: load the snapshot (policy lines
first, then data lines stamped with the snapshot-load time), then replay the
WAL in two phases (all `POLICY SET` records first, then the data records
with their logged timestamps), with WAL logging disabled throughout and
re-enabled afterwards. -/

/-- A user-level operation of the histories quantified over here: `SET`
(with the clock value at which it executes), `DEL`, and `POLICY SET`. -/
inductive Op where
  | set (now : Int) (key value : String)
  | del (key : String)
  | setPolicy (p : DecisionPolicy)
deriving DecidableEq, Repr

/-- Executing one fault-free operation against the engine. -/
def Op.apply (e : KVStore) : Op → KVStore
  | .set now key value => (e.set false now key value).2
  | .del key => (e.del false key).2
  | .setPolicy p => e.setDecisionPolicy false p

/-- Executing a sequence of fault-free operations. -/
def run (e : KVStore) (ops : List Op) : KVStore := ops.foldl Op.apply e

/-- A line of the snapshot file: `POLICY SET <name>` or `SET <key> <value>`
(no timestamp). -/
inductive SnapRecord where
  | set (key value : String)
  | policy (name : String)
deriving DecidableEq, Repr

/-- Snapshot replay, first pass (`main.cpp`): apply every valid
`POLICY SET` line to the policy (the engine's `walEnabled` is off, so
nothing is logged); unknown names are skipped. -/
def snapPolicyStep (e : KVStore) : SnapRecord → KVStore
  | .policy name =>
      match parsePolicy name with
      | some p => e.setDecisionPolicy false p
      | none => e
  | _ => e

/-- Snapshot replay, second pass (`main.cpp`): apply every `SET key value`
line as `setAtTime(key, value, snapshotTime)` — snapshots store no
timestamps, so the load time is used. -/
def snapDataStep (snapshotTime : Int) (e : KVStore) : SnapRecord → KVStore
  | .set key value => (e.setAtTime key value snapshotTime snapshotTime).2
  | _ => e

/-- WAL replay, phase 1 (`main.cpp`): apply every valid `POLICY SET` record
to the policy, without logging; unknown names are skipped. -/
def walPolicyStep (e : KVStore) : WalRecord → KVStore
  | .policy name =>
      match parsePolicy name with
      | some p => e.setDecisionPolicy false p
      | none => e
  | _ => e

/-- WAL replay, phase 2 (`main.cpp`): apply `SET key value ms` as
`setAtTime(key, value, ms)` and `DEL key` (for a non-empty key) as `del`;
policy records are skipped in this phase.  `now` is the ambient clock (read
by `LAST_T` retention inside `setAtTime`). -/
def walDataStep (now : Int) (e : KVStore) : WalRecord → KVStore
  | .set key value ms => (e.setAtTime key value ms now).2
  | .del key => if key = "" then e else (e.del false key).2
  | .policy _ => e

/-- Startup recovery (`main()`): starting from a fresh engine whose WAL file
holds `walRecs` and whose snapshot file holds `snap`, load the snapshot
(policies, then data stamped with `now`), then replay the WAL in two phases
(policies, then data), with WAL logging disabled during each replay and
re-enabled after it.  Empty files skip their replay block entirely. -/
def recover (snap : List SnapRecord) (walRecs : List WalRecord) (now : Int) :
    KVStore :=
  let e0 := KVStore.fresh walRecs
  let e1 :=
    if snap.isEmpty then e0
    else
      let ea := (e0.setWalEnabled false)
      let eb := snap.foldl snapPolicyStep ea
      let ec := snap.foldl (snapDataStep now) eb
      ec.setWalEnabled true
  if walRecs.isEmpty then e1
  else
    let ea := (e1.setWalEnabled false)
    let eb := walRecs.foldl walPolicyStep ea
    let ec := walRecs.foldl (walDataStep now) eb
    ec.setWalEnabled true

/-- The effect of WAL phase-1 replay on the decision policy alone: the last
valid `POLICY SET` record wins. -/
def phaseAPolicy (p0 : DecisionPolicy) : List WalRecord → DecisionPolicy
  | [] => p0
  | .set _ _ _ :: rest => phaseAPolicy p0 rest
  | .del _ :: rest => phaseAPolicy p0 rest
  | .policy name :: rest => phaseAPolicy ((parsePolicy name).getD p0) rest

/-- The effect of WAL phase-2 replay on the store alone. -/
def phaseBStore (s : Store) : List WalRecord → Store
  | [] => s
  | .set key value ms :: rest =>
      phaseBStore (storeSet s key (s key ++ [(⟨ms, value⟩ : Version)])) rest
  | .del key :: rest => phaseBStore (if key = "" then s else storeSet s key []) rest
  | .policy _ :: rest => phaseBStore s rest

/-- The invariant maintained by every fault-free run whose WAL stays
healthy: logging is on, the file is open, retention is the default, and the
WAL records determine both the store (by phase-2 replay from empty) and the
decision policy (by phase-1 replay from the default). -/
def GoodRun (e : KVStore) : Prop :=
  e.walEnabled = true ∧ e.wal.enabled = true ∧ e.wal.fileOpen = true ∧
  e.retentionPolicy = .init ∧
  phaseBStore (fun _ => []) e.wal.records = e.store ∧
  phaseAPolicy .safeDefault e.wal.records = e.decisionPolicy

/-! ## Distinguished concrete states used by the witnesses and
counterexamples -/

/-- Ordering of versions by timestamp (non-strict, so equal timestamps are
allowed and insertion order breaks the tie). -/
def tsLE (a b : Version) : Prop := a.timestamp ≤ b.timestamp

instance : DecidableRel tsLE := fun a b =>
  inferInstanceAs (Decidable (a.timestamp ≤ b.timestamp))

/-- Demo store with a three-version sorted history for the key `p`. -/
def demoSortedKV : KVStore :=
  { KVStore.fresh [] with
    store := storeSet (fun _ => []) "p" [⟨100, "a"⟩, ⟨200, "b"⟩, ⟨300, "c"⟩] }

/-- Demo store with a four-version history for `x` and `LastN(2)` retention. -/
def demoLastNKV : KVStore :=
  { KVStore.fresh [] with
    retentionPolicy := ⟨.lastN, 2, 0⟩
    store := storeSet (fun _ => []) "x" [⟨1, "a"⟩, ⟨2, "b"⟩, ⟨3, "c"⟩, ⟨4, "d"⟩] }

/-- Demo enum guard applying to every key, allowing only `active`. -/
def demoEnumGuard : Guard := ⟨"statusG", "*", true, .enumValues ["active"]⟩

/-- Demo integer-range guard applying to every key. -/
def demoRangeGuard : Guard := ⟨"scoreG", "*", true, .rangeInt 0 100⟩

/-- Demo engine holding the enum guard followed by the range guard. -/
def demoGuardKV : KVStore :=
  { KVStore.fresh [] with guards := [demoEnumGuard, demoRangeGuard] }

/-- Demo engine holding only the enum guard. -/
def demoEnumKV : KVStore :=
  { KVStore.fresh [] with guards := [demoEnumGuard] }

/-- A healthy WAL: enabled, file open, no records yet. -/
def demoWAL : WALState := ⟨true, true, []⟩

/-- Demo engine whose WAL is `demoWAL`, with one version stored at `k`. -/
def demoWalKV : KVStore :=
  { KVStore.fresh [] with store := storeSet (fun _ => []) "k" [⟨5, "old"⟩] }

/-- Demo operation sequence: policy change, two sets, a delete and another
policy change, with increasing clock values. -/
def demoOps : List Op :=
  [.setPolicy .strict, .set 100 "k" "v1", .set 200 "k" "v2",
   .set 300 "j" "w", .del "j", .setPolicy .devFriendly]

/-- Per-operation key sanity used by the recovery round trip: a `DEL` key is
non-empty (keys are non-empty and whitespace-free at the caller boundary;
replay skips a `DEL` with an empty key field). -/
def Op.keysOk : Op → Bool
  | .del key => key != ""
  | _ => true

/-- The names of the guards of a list that answer COUNTER_OFFER on a value,
in order. -/
def coNames (value : String) (gs : List Guard) : List String :=
  (gs.filter (fun g => (g.evaluate value).1 == .counterOffer)).map Guard.name

/-- A demo counter-offer simulation outcome carrying one alternative. -/
def demoEvalCO : WriteEvaluation :=
  { initEval "k" "v" with result := .counterOffer
                          alternatives := [⟨"a", "suggested"⟩] }

/-! ## Supporting lemmas -/

/-- On a non-decreasing version list, the `getAtTime` scan starting from
fallback `acc` answers the value of the last version with timestamp `≤ t`,
or `acc` when there is none. -/
theorem getAtLoop_filter (t : Int) (l : List Version) (acc : Option String)
    (h : l.Pairwise tsLE) :
    getAtLoop t l acc =
      ((l.filter (fun v => decide (v.timestamp ≤ t))).getLast?).elim acc
        (fun w => some w.value) := by
  induction l generalizing acc with
  | nil => simp [getAtLoop]
  | cons v rest ih =>
    rcases List.pairwise_cons.mp h with ⟨hv, hrest⟩
    by_cases hle : v.timestamp ≤ t
    · rw [show getAtLoop t (v :: rest) acc = getAtLoop t rest (some v.value) by
        simp [getAtLoop, hle]]
      rw [ih _ hrest]
      have hfc : (v :: rest).filter (fun v => decide (v.timestamp ≤ t)) =
          v :: rest.filter (fun v => decide (v.timestamp ≤ t)) := by
        simp [List.filter_cons, hle]
      rw [hfc]
      cases hfl : rest.filter (fun v => decide (v.timestamp ≤ t)) with
      | nil => simp
      | cons w ws =>
          obtain ⟨z, hz⟩ : ∃ z, (w :: ws).getLast? = some z :=
            Option.isSome_iff_exists.mp (by simp [List.getLast?_isSome])
          simp [List.getLast?_cons_cons, hz]
    · have hnone : (v :: rest).filter (fun v => decide (v.timestamp ≤ t)) = [] := by
        rw [List.filter_eq_nil_iff]
        intro a ha
        rcases List.mem_cons.mp ha with rfl | ha2
        · simpa using hle
        · have := hv a ha2
          simp only [tsLE] at this
          simp only [decide_eq_true_eq]
          omega
      rw [hnone]
      simp [getAtLoop, hle]

/-- The `drop` of a pairwise list is pairwise. -/
theorem pairwise_drop_ts (l : List Version) (n : Nat) (h : l.Pairwise tsLE) :
    (l.drop n).Pairwise tsLE :=
  h.sublist (List.drop_sublist n l)

/-- The `dropWhile` of a pairwise list is pairwise. -/
theorem pairwise_dropWhile_ts (l : List Version) (p : Version → Bool)
    (h : l.Pairwise tsLE) : (l.dropWhile p).Pairwise tsLE :=
  h.sublist (List.dropWhile_sublist p)

/-- Retention never disturbs a non-decreasing history. -/
theorem applyRetentionList_pairwise (pol : RetentionPolicy) (now : Int)
    (l : List Version) (h : l.Pairwise tsLE) :
    (applyRetentionList pol now l).Pairwise tsLE := by
  obtain ⟨mode, count, seconds⟩ := pol
  cases mode with
  | full => exact h
  | lastN =>
      simp only [applyRetentionList]
      split
      · exact pairwise_drop_ts _ _ h
      · exact h
  | lastT =>
      simp only [applyRetentionList]
      split
      · exact pairwise_dropWhile_ts _ _ h
      · exact h

/-- Retention under `FULL` (in particular under the default policy) is the
identity. -/
theorem applyRetentionList_init (now : Int) (l : List Version) :
    applyRetentionList .init now l = l := rfl

/-! ## C2: getAt answers the latest version at or before T -/

/-- C2: on a key whose version list has non-decreasing timestamps,
`getAt(key, T)` returns the value of the latest version with timestamp ≤ T
(the last such version in list order), and absent when no version has
timestamp ≤ T — in particular for an absent key. -/
theorem getAtTime_latest_le (e : KVStore) (key : String) (t : Int)
    (h : (e.store key).Pairwise tsLE) :
    e.getAtTime key t =
      ((e.store key).filter (fun v => decide (v.timestamp ≤ t))).getLast?.map
        Version.value
  ∧ ((∀ v ∈ e.store key, t < v.timestamp) → e.getAtTime key t = none) := by
  have hmain : e.getAtTime key t =
      ((e.store key).filter (fun v => decide (v.timestamp ≤ t))).getLast?.map
        Version.value := by
    unfold KVStore.getAtTime
    by_cases he : (e.store key).isEmpty
    · rw [if_pos he]
      rw [List.isEmpty_iff] at he
      simp [he]
    · rw [if_neg he]
      rw [getAtLoop_filter t _ none h]
      cases (e.store key).filter (fun v => decide (v.timestamp ≤ t)) |>.getLast? with
      | none => rfl
      | some w => rfl
  refine ⟨hmain, fun hall => ?_⟩
  rw [hmain]
  have : (e.store key).filter (fun v => decide (v.timestamp ≤ t)) = [] := by
    rw [List.filter_eq_nil_iff]
    intro a ha
    have := hall a ha
    simp only [decide_eq_true_eq]
    omega
  rw [this]
  rfl

/-- Witness for C2 at a concrete sorted history. -/
theorem getAtTime_latest_le_witness :
    ((demoSortedKV.store "p").Pairwise tsLE)
  ∧ (demoSortedKV.getAtTime "p" 250 =
      ((demoSortedKV.store "p").filter (fun v => decide (v.timestamp ≤ 250))).getLast?.map
        Version.value
    ∧ ((∀ v ∈ demoSortedKV.store "p", (250 : Int) < v.timestamp) →
        demoSortedKV.getAtTime "p" 250 = none)) :=
  ⟨by decide, getAtTime_latest_le demoSortedKV "p" 250 (by decide)⟩

/-! ## C8: LastN retention keeps exactly the newest min(s, n) versions -/

/-- C8: with retention policy `LastN(n)`, `n ≥ 1`, retention on a key whose
history has `s` versions leaves the history unchanged when `s ≤ n` and
otherwise removes exactly the oldest `s − n` versions: the result is the
length-`min(s, n)` suffix of the original history, in the original order. -/
theorem applyRetention_lastN (e : KVStore) (now : Int) (key : String) (n : Int)
    (hmode : e.retentionPolicy.mode = .lastN)
    (hcount : e.retentionPolicy.count = n) (hn : 1 ≤ n) :
    (e.applyRetention now key).store key =
      (e.store key).drop ((e.store key).length - n.toNat)
  ∧ ((e.applyRetention now key).store key).length = min (e.store key).length n.toNat
  ∧ ((e.store key).length ≤ n.toNat →
      (e.applyRetention now key).store key = e.store key)
  ∧ ((e.applyRetention now key).store key) <:+ e.store key := by
  have hlist : ∀ l : List Version,
      applyRetentionList e.retentionPolicy now l = l.drop (l.length - n.toNat) := by
    intro l
    unfold applyRetentionList
    rw [hmode]
    simp only [hcount]
    by_cases hbig : n.toNat < l.length
    · rw [if_pos ⟨by omega, hbig⟩]
    · rw [if_neg (by omega)]
      have : l.length - n.toNat = 0 := by omega
      rw [this, List.drop_zero]
  have hstore : (e.applyRetention now key).store key =
      (e.store key).drop ((e.store key).length - n.toNat) := by
    unfold KVStore.applyRetention
    by_cases he : (e.store key).isEmpty
    · rw [if_pos he]
      rw [List.isEmpty_iff] at he
      rw [he]
      simp
    · rw [if_neg he]
      simp only [storeSet, if_pos rfl]
      exact hlist _
  refine ⟨hstore, ?_, ?_, ?_⟩
  · rw [hstore, List.length_drop]
    omega
  · intro hle
    rw [hstore]
    have : (e.store key).length - n.toNat = 0 := by omega
    rw [this, List.drop_zero]
  · rw [hstore]
    exact List.drop_suffix _ _

/-- Witness for C8 at a concrete four-version history under `LastN(2)`. -/
theorem applyRetention_lastN_witness :
    (demoLastNKV.retentionPolicy.mode = .lastN
      ∧ demoLastNKV.retentionPolicy.count = 2 ∧ (1 : Int) ≤ 2)
  ∧ (demoLastNKV.applyRetention 0 "x").store "x" =
      (demoLastNKV.store "x").drop ((demoLastNKV.store "x").length - (2 : Int).toNat) :=
  ⟨⟨by decide, by decide, by decide⟩,
    (applyRetention_lastN demoLastNKV 0 "x" 2 (by decide) (by decide) (by decide)).1⟩

/-! ## C9: explainGetAt is consistent with getAt -/

/-- The selected version of the explain scan is exactly what the `getAtTime`
scan answers when started from the selected version's value. -/
theorem explainScan_fst (t : Int) (l : List Version) :
    ∀ (i : Nat) (sel : Option (Nat × Version)) (sk : List Version),
    ((explainScan t l i sel sk).1).map (fun p => p.2.value) =
      getAtLoop t l (sel.map (fun p => p.2.value)) := by
  induction l with
  | nil => intro i sel sk; rfl
  | cons v rest ih =>
      intro i sel sk
      by_cases hle : v.timestamp ≤ t
      · cases sel with
        | none =>
            simp only [explainScan, if_pos hle]
            rw [ih]
            simp [getAtLoop, hle]
        | some p =>
            obtain ⟨j, pv⟩ := p
            simp only [explainScan, if_pos hle]
            rw [ih]
            simp [getAtLoop, hle]
      · simp [explainScan, hle, getAtLoop]

/-- Every version the explain scan places into the skipped list has
timestamp at or before the query time, provided the accumulators already
satisfy this. -/
theorem explainScan_skipped_le (t : Int) (l : List Version) :
    ∀ (i : Nat) (sel : Option (Nat × Version)) (sk : List Version),
    (∀ v ∈ sk, v.timestamp ≤ t) →
    (∀ p : Nat × Version, sel = some p → p.2.timestamp ≤ t) →
    ∀ v ∈ (explainScan t l i sel sk).2, v.timestamp ≤ t := by
  induction l with
  | nil =>
      intro i sel sk h1 _ v hv
      exact h1 v hv
  | cons w rest ih =>
      intro i sel sk h1 h2 v hv
      by_cases hle : w.timestamp ≤ t
      · cases sel with
        | none =>
            simp only [explainScan, if_pos hle] at hv
            refine ih (i + 1) (some (i, w)) sk h1 ?_ v hv
            intro p hp
            cases hp
            exact hle
        | some q =>
            obtain ⟨j, pv⟩ := q
            have hpv : pv.timestamp ≤ t := h2 (j, pv) rfl
            simp only [explainScan, if_pos hle] at hv
            refine ih (i + 1) (some (i, w)) (sk ++ [pv]) ?_ ?_ v hv
            · intro u hu
              rcases List.mem_append.mp hu with h | h
              · exact h1 u h
              · rw [List.mem_singleton] at h
                subst h
                exact hpv
            · intro p hp
              cases hp
              exact hle
      · simp only [explainScan, if_neg hle] at hv
        exact h1 v hv

/-- C9: `explainGetAt(key, T)` is consistent with `getAt(key, T)`: `found`
holds exactly when `getAt` answers a value, the selected version's value is
the answered value, `totalVersions` is the size of the key's history, and
every skipped version has timestamp ≤ T. -/
theorem explainGetAtTime_consistent (e : KVStore) (key : String) (t : Int) :
    ((e.explainGetAtTime key t).found = true ↔ (e.getAtTime key t).isSome = true)
  ∧ (∀ v : Version, (e.explainGetAtTime key t).selectedVersion = some v →
      e.getAtTime key t = some v.value)
  ∧ (e.explainGetAtTime key t).totalVersions = (e.store key).length
  ∧ (∀ v ∈ (e.explainGetAtTime key t).skippedVersions, v.timestamp ≤ t) := by
  by_cases he : (e.store key).isEmpty
  · have hs : e.store key = [] := List.isEmpty_iff.mp he
    simp [KVStore.explainGetAtTime, KVStore.getAtTime, he, hs]
  · have hfst := explainScan_fst t (e.store key) 0 none []
    have hsk := explainScan_skipped_le t (e.store key) 0 none []
      (by intro v hv; cases hv) (by intro p hp; cases hp)
    cases hscan : (explainScan t (e.store key) 0 none []).1 with
    | none =>
        have hget : e.getAtTime key t = none := by
          unfold KVStore.getAtTime
          rw [if_neg he]
          rw [hscan] at hfst
          simpa using hfst.symm
        refine ⟨?_, ?_, ?_, ?_⟩
        · simp [KVStore.explainGetAtTime, he, hscan, hget]
        · intro v hv
          simp [KVStore.explainGetAtTime, he, hscan] at hv
        · simp [KVStore.explainGetAtTime, he, hscan]
        · intro v hv
          simp only [KVStore.explainGetAtTime, if_neg he, hscan] at hv
          exact hsk v hv
    | some p =>
        obtain ⟨idx, pv⟩ := p
        have hget : e.getAtTime key t = some pv.value := by
          unfold KVStore.getAtTime
          rw [if_neg he]
          rw [hscan] at hfst
          simpa using hfst.symm
        refine ⟨?_, ?_, ?_, ?_⟩
        · simp [KVStore.explainGetAtTime, he, hscan, hget]
        · intro v hv
          simp only [KVStore.explainGetAtTime, if_neg he, hscan] at hv
          have : pv = v := by simpa using hv
          rw [hget, this]
        · simp [KVStore.explainGetAtTime, he, hscan]
        · intro v hv
          simp only [KVStore.explainGetAtTime, if_neg he, hscan] at hv
          exact hsk v hv

/-- Witness for C9 at a concrete three-version history and query time. -/
theorem explainGetAtTime_consistent_witness :
    ((demoSortedKV.explainGetAtTime "p" 250).found = true ↔
      (demoSortedKV.getAtTime "p" 250).isSome = true)
  ∧ demoSortedKV.getAtTime "p" 250 = some (Version.mk 200 "b").value
  ∧ (demoSortedKV.explainGetAtTime "p" 250).totalVersions =
      (demoSortedKV.store "p").length :=
  ⟨(explainGetAtTime_consistent demoSortedKV "p" 250).1,
   (explainGetAtTime_consistent demoSortedKV "p" 250).2.1 ⟨200, "b"⟩ (by decide),
   (explainGetAtTime_consistent demoSortedKV "p" 250).2.2.1⟩

/-! ## C4: the SafeDefault policy transform -/

/-- Under `SAFE_DEFAULT`, the transformed verdict is REJECT exactly when the
simulation rejected or counter-offered with no alternatives; a counter-offer
with alternatives is passed through with the alternatives unchanged. -/
theorem applyDecisionPolicy_safeDefault (e : KVStore) (ev : WriteEvaluation)
    (h : e.decisionPolicy = .safeDefault) :
    ((e.applyDecisionPolicy ev).result = .reject ↔
      (ev.result = .reject ∨ (ev.result = .counterOffer ∧ ev.alternatives = [])))
  ∧ (ev.result = .counterOffer → ev.alternatives ≠ [] →
      (e.applyDecisionPolicy ev).result = .counterOffer ∧
      (e.applyDecisionPolicy ev).alternatives = ev.alternatives) := by
  unfold KVStore.applyDecisionPolicy
  rw [h]
  cases hr : ev.result with
  | accept => simp [hr]
  | reject => simp [hr]
  | counterOffer =>
      by_cases halt : ev.alternatives.isEmpty
      · have : ev.alternatives = [] := List.isEmpty_iff.mp halt
        simp [hr, halt, this]
      · have : ev.alternatives ≠ [] := by
          intro hnil
          rw [hnil] at halt
          exact halt rfl
        simp [hr, halt, this]

/-- C4: the claim's statement, at the `applyDecisionPolicy` entry point. -/
theorem safeDefault_reject_iff (e : KVStore) (ev : WriteEvaluation)
    (h : e.decisionPolicy = .safeDefault) :
    ((e.applyDecisionPolicy ev).result = .reject ↔
      (ev.result = .reject ∨ (ev.result = .counterOffer ∧ ev.alternatives = [])))
  ∧ (ev.result = .counterOffer → ev.alternatives ≠ [] →
      (e.applyDecisionPolicy ev).result = .counterOffer ∧
      (e.applyDecisionPolicy ev).alternatives = ev.alternatives) :=
  applyDecisionPolicy_safeDefault e ev h

/-- Witness for C4 at a concrete counter-offer evaluation with one
alternative, under the default (SafeDefault) policy. -/
theorem safeDefault_reject_iff_witness :
    ((KVStore.fresh []).applyDecisionPolicy demoEvalCO).result = .counterOffer ∧
    ((KVStore.fresh []).applyDecisionPolicy demoEvalCO).alternatives =
      demoEvalCO.alternatives :=
  (safeDefault_reject_iff (KVStore.fresh []) demoEvalCO (by decide)).2
    (by decide) (by decide)

/-! ## C10: enum guards counter-offer with alternatives -/

/-- Folding further alternatives onto a non-empty collection keeps it
non-empty. -/
theorem addAlternatives_ne_nil_left (coll alts : List Alternative)
    (h : coll ≠ []) : addAlternatives coll alts ≠ [] := by
  induction alts generalizing coll with
  | nil => exact h
  | cons a rest ih =>
      show addAlternatives
        (if coll.any (fun ex => ex.value == a.value) then coll else coll ++ [a])
        rest ≠ []
      split
      · exact ih coll h
      · exact ih (coll ++ [a]) (by simp)

/-- Folding a non-empty list of alternatives onto any collection yields a
non-empty collection. -/
theorem addAlternatives_ne_nil (coll alts : List Alternative)
    (h : alts ≠ []) : addAlternatives coll alts ≠ [] := by
  cases alts with
  | nil => exact absurd rfl h
  | cons a rest =>
      show addAlternatives
        (if coll.any (fun ex => ex.value == a.value) then coll else coll ++ [a])
        rest ≠ []
      split
      · next hany =>
          refine addAlternatives_ne_nil_left coll rest ?_
          intro hnil
          rw [hnil] at hany
          simp at hany
      · exact addAlternatives_ne_nil_left _ rest (by simp)

/-- An enum guard accepts a value in its allowed list and counter-offers on
any other value; it never rejects. -/
theorem enum_evaluate_result (g : Guard) (allowed : List String) (v : String)
    (hvar : g.variant = .enumValues allowed) :
    (g.evaluate v).1 = if v ∈ allowed then .accept else .counterOffer := by
  simp only [Guard.evaluate, hvar]
  split
  · next hm => simp [hm]
  · next hm => simp [hm]

/-- An enum guard over a non-empty allowed list always generates at least
one alternative: a similarity match if one exists, the first values of the
list otherwise. -/
theorem enum_alternatives_ne_nil (g : Guard) (allowed : List String) (v : String)
    (hvar : g.variant = .enumValues allowed) (hne : allowed ≠ []) :
    g.generateAlternatives v ≠ [] := by
  simp only [Guard.generateAlternatives, hvar]
  split
  · -- no similarity matches: the fallback suggestions
    simp only [ne_eq, List.map_eq_nil_iff, List.take_eq_nil_iff]
    rintro (h3 | h0)
    · have : allowed.length ≠ 0 := fun h => hne (List.length_eq_zero.mp h)
      omega
    · exact hne h0
  · next hp => exact fun hnil => hp (by rw [hnil]; rfl)

/-- The guard loop never answers REJECT, and answers COUNTER_OFFER only with
a non-empty alternatives list, when every guard in the list is
reject-free and backs its counter-offers with alternatives. -/
theorem simLoop_no_reject (value : String) :
    ∀ (gs : List Guard) (ev : WriteEvaluation) (allA : Bool)
      (coll : List Alternative),
    ev.result = .accept →
    (allA = false → coll ≠ []) →
    (∀ g ∈ gs, (g.evaluate value).1 ≠ .reject ∧
      ((g.evaluate value).1 = .counterOffer → g.generateAlternatives value ≠ [])) →
    (simLoop value gs ev allA coll).result = .accept ∨
    ((simLoop value gs ev allA coll).result = .counterOffer ∧
      (simLoop value gs ev allA coll).alternatives ≠ []) := by
  intro gs
  induction gs with
  | nil =>
      intro ev allA coll hres hcoll _
      cases allA with
      | false =>
          right
          exact ⟨by simp [simLoop], by simpa [simLoop] using hcoll rfl⟩
      | true =>
          left
          simpa [simLoop] using hres
  | cons g rest ih =>
      intro ev allA coll hres hcoll hgs
      have hg := hgs g (List.mem_cons_self g rest)
      have hrest : ∀ g2 ∈ rest, (g2.evaluate value).1 ≠ .reject ∧
          ((g2.evaluate value).1 = .counterOffer →
            g2.generateAlternatives value ≠ []) :=
        fun g2 h2 => hgs g2 (List.mem_cons_of_mem g h2)
      cases hr : (g.evaluate value).1 with
      | reject => exact absurd hr hg.1
      | accept =>
          simp only [simLoop, hr]
          exact ih ev allA coll hres hcoll hrest
      | counterOffer =>
          simp only [simLoop, hr]
          refine ih _ false _ (by simpa using hres) ?_ hrest
          intro _
          exact addAlternatives_ne_nil coll _ (hg.2 hr)

/-- C10: an enum guard with a non-empty allowed list counter-offers on any
value outside the list and generates at least one alternative; hence in an
engine whose applicable guards are all such enum guards, the SafeDefault
policy never strengthens the outcome to REJECT. -/
theorem enumGuard_counterOffers_with_alternatives (g : Guard)
    (allowed : List String) (v : String)
    (hvar : g.variant = .enumValues allowed) (hne : allowed ≠ [])
    (hmem : v ∉ allowed) :
    (g.evaluate v).1 = .counterOffer
  ∧ g.generateAlternatives v ≠ []
  ∧ (∀ (e : KVStore) (key : String), e.decisionPolicy = .safeDefault →
      (∀ g2 ∈ e.getGuardsForKey key, ∃ al, g2.variant = .enumValues al ∧ al ≠ []) →
      (e.applyDecisionPolicy (e.simulateWrite key v)).result ≠ .reject) := by
  refine ⟨?_, enum_alternatives_ne_nil g allowed v hvar hne, ?_⟩
  · rw [enum_evaluate_result g allowed v hvar, if_neg hmem]
  · intro e key hpol hall
    have hmain := applyDecisionPolicy_safeDefault e (e.simulateWrite key v) hpol
    have hsim : (e.simulateWrite key v).result = .accept ∨
        ((e.simulateWrite key v).result = .counterOffer ∧
          (e.simulateWrite key v).alternatives ≠ []) := by
      unfold KVStore.simulateWrite
      by_cases hemp : (e.getGuardsForKey key).isEmpty
      · left
        simp [hemp, initEval]
      · simp only [hemp, if_false, Bool.false_eq_true]
        refine simLoop_no_reject v (e.getGuardsForKey key) (initEval key v) true []
          rfl (by intro h; cases h) ?_
        intro g2 hg2
        obtain ⟨al, hva, hne2⟩ := hall g2 hg2
        refine ⟨?_, fun _ => enum_alternatives_ne_nil g2 al v hva hne2⟩
        rw [enum_evaluate_result g2 al v hva]
        split <;> simp
    rcases hsim with ha | ⟨hco, halts⟩
    · intro hrej
      rcases hmain.1.mp hrej with h1 | ⟨h2, _⟩
      · rw [ha] at h1
        exact GuardResult.noConfusion h1
      · rw [ha] at h2
        exact GuardResult.noConfusion h2
    · intro hrej
      have hkeep := (hmain.2 hco halts).1
      rw [hkeep] at hrej
      exact GuardResult.noConfusion hrej

/-- Witness for C10 with the demo enum guard and the value `abc`. -/
theorem enumGuard_counterOffers_with_alternatives_witness :
    (demoEnumGuard.evaluate "abc").1 = .counterOffer
  ∧ demoEnumGuard.generateAlternatives "abc" ≠ []
  ∧ (demoEnumKV.applyDecisionPolicy (demoEnumKV.simulateWrite "k" "abc")).result ≠
      .reject :=
  ⟨(enumGuard_counterOffers_with_alternatives demoEnumGuard ["active"] "abc"
      rfl (by decide) (by decide)).1,
   (enumGuard_counterOffers_with_alternatives demoEnumGuard ["active"] "abc"
      rfl (by decide) (by decide)).2.1,
   (enumGuard_counterOffers_with_alternatives demoEnumGuard ["active"] "abc"
      rfl (by decide) (by decide)).2.2 demoEnumKV "k" (by decide)
     (by
       intro g2 hg2
       have : g2 = demoEnumGuard := by
         simpa [demoEnumKV, KVStore.getGuardsForKey, KVStore.fresh,
           demoEnumGuard, Guard.appliesTo] using hg2
       rw [this]
       exact ⟨["active"], rfl, by decide⟩)⟩

/-! ## C7: propose is side-effect-free -/

/-- Engines with the same guard list compute the same applicable guards. -/
theorem getGuardsForKey_congr (e1 e2 : KVStore) (key : String)
    (h : e1.guards = e2.guards) :
    e1.getGuardsForKey key = e2.getGuardsForKey key := by
  unfold KVStore.getGuardsForKey
  rw [h]

/-- Engines with the same guard list simulate identically. -/
theorem simulateWrite_congr (e1 e2 : KVStore) (key value : String)
    (h : e1.guards = e2.guards) :
    e1.simulateWrite key value = e2.simulateWrite key value := by
  unfold KVStore.simulateWrite
  rw [getGuardsForKey_congr e1 e2 key h]

/-- Engines with the same decision policy transform evaluations
identically. -/
theorem applyDecisionPolicy_congr (e1 e2 : KVStore) (ev : WriteEvaluation)
    (h : e1.decisionPolicy = e2.decisionPolicy) :
    e1.applyDecisionPolicy ev = e2.applyDecisionPolicy ev := by
  unfold KVStore.applyDecisionPolicy
  rw [h]

/-- C7: `propose` leaves the engine (version store, guard set, decision
policy and WAL) unchanged, is idempotent across consecutive calls, is
independent of the ambient clock, and depends only on the guard set and the
decision policy. -/
theorem proposeSet_sideEffectFree (e e2 : KVStore) (clock clock2 : Int)
    (key value : String) (hg : e2.guards = e.guards)
    (hp : e2.decisionPolicy = e.decisionPolicy) :
    (e.proposeSet clock key value).2 = e
  ∧ ((e.proposeSet clock key value).2.proposeSet clock key value).1 =
      (e.proposeSet clock key value).1
  ∧ (e.proposeSet clock2 key value).1 = (e.proposeSet clock key value).1
  ∧ (e2.proposeSet clock key value).1 = (e.proposeSet clock key value).1 := by
  refine ⟨rfl, rfl, rfl, ?_⟩
  show e2.applyDecisionPolicy (e2.simulateWrite key value) =
    e.applyDecisionPolicy (e.simulateWrite key value)
  rw [simulateWrite_congr e2 e key value hg,
    applyDecisionPolicy_congr e2 e _ hp]

/-- Witness for C7 at the demo guarded engine. -/
theorem proposeSet_sideEffectFree_witness :
    (demoGuardKV.proposeSet 0 "k" "150").2 = demoGuardKV
  ∧ ((demoGuardKV.proposeSet 0 "k" "150").2.proposeSet 0 "k" "150").1 =
      (demoGuardKV.proposeSet 0 "k" "150").1
  ∧ (demoGuardKV.proposeSet 99 "k" "150").1 = (demoGuardKV.proposeSet 0 "k" "150").1
  ∧ (demoGuardKV.proposeSet 0 "k" "150").1 = (demoGuardKV.proposeSet 0 "k" "150").1 :=
  proposeSet_sideEffectFree demoGuardKV demoGuardKV 0 99 "k" "150" rfl rfl

/-! ## C5: a rejecting guard stops the simulation -/

/-- Closed form of the guard loop when the guards are an arbitrary
reject-free prefix, then a rejecting guard `g`, then anything: the loop
stops at `g` with verdict REJECT, `g`'s reason, untouched alternatives, and
the names of the counter-offering prefix guards followed by `g`'s name
appended to the accumulated trigger list.  The suffix after `g` does not
appear in the result. -/
theorem simLoop_reject (value : String) (g : Guard)
    (hg : (g.evaluate value).1 = .reject) :
    ∀ (pre : List Guard) (post : List Guard) (ev : WriteEvaluation)
      (allA : Bool) (coll : List Alternative),
    (∀ g2 ∈ pre, (g2.evaluate value).1 ≠ .reject) →
    simLoop value (pre ++ g :: post) ev allA coll =
      { ev with result := .reject
                reason := (g.evaluate value).2
                triggeredGuards :=
                  ev.triggeredGuards ++ coNames value pre ++ [g.name] } := by
  intro pre
  induction pre with
  | nil =>
      intro post ev allA coll _
      simp only [List.nil_append, simLoop, hg]
      simp [coNames]
  | cons p rest ih =>
      intro post ev allA coll hpre
      have hp := hpre p (List.mem_cons_self p rest)
      have hrest : ∀ g2 ∈ rest, (g2.evaluate value).1 ≠ .reject :=
        fun g2 h2 => hpre g2 (List.mem_cons_of_mem p h2)
      cases hr : (p.evaluate value).1 with
      | reject => exact absurd hr hp
      | accept =>
          simp only [List.cons_append, simLoop, hr, List.append_eq]
          rw [ih post ev allA coll hrest]
          have hco : coNames value (p :: rest) = coNames value rest := by
            simp [coNames, List.filter_cons, hr]
          rw [hco]
      | counterOffer =>
          simp only [List.cons_append, simLoop, hr, List.append_eq]
          rw [ih post _ false _ hrest]
          have hco : coNames value (p :: rest) = p.name :: coNames value rest := by
            simp [coNames, List.filter_cons, hr]
          rw [hco]
          simp [List.append_assoc]

/-- C5 counterexample: in the demo engine the enum guard counter-offers on
`abc` and the range guard then rejects it; the simulation does reject with
the range guard's reason, but `triggeredGuards` is NOT `[that one guard]` —
it also retains the name pushed by the earlier counter-offering guard. -/
theorem simulateWrite_triggeredGuards_cx :
    (demoEnumGuard.evaluate "abc").1 = .counterOffer
  ∧ (demoRangeGuard.evaluate "abc").1 = .reject
  ∧ (demoGuardKV.simulateWrite "k" "abc").result = .reject
  ∧ (demoGuardKV.simulateWrite "k" "abc").triggeredGuards = ["statusG", "scoreG"]
  ∧ (demoGuardKV.simulateWrite "k" "abc").triggeredGuards ≠
      [demoRangeGuard.name] := by
  decide

/-- C5 (amended): if the applicable enabled guards are a reject-free prefix
`pre`, then a guard `g` that evaluates to REJECT, then any suffix, the
simulation yields REJECT with `g`'s reason and no alternatives; no guard
after `g` influences the result (any suffix gives the identical
evaluation); and `triggeredGuards` is the list of names of the
counter-offering guards of `pre` followed by `g`'s name (so it is exactly
`[g name]` precisely when no earlier applicable guard counter-offered). -/
theorem simulateWrite_reject_shortCircuit (e : KVStore) (key value : String)
    (pre post : List Guard) (g : Guard)
    (happ : e.getGuardsForKey key = pre ++ g :: post)
    (hg : (g.evaluate value).1 = .reject)
    (hpre : ∀ g2 ∈ pre, (g2.evaluate value).1 ≠ .reject) :
    (e.simulateWrite key value).result = .reject
  ∧ (e.simulateWrite key value).reason = (g.evaluate value).2
  ∧ (e.simulateWrite key value).alternatives = []
  ∧ (e.simulateWrite key value).triggeredGuards = coNames value pre ++ [g.name]
  ∧ (∀ (e2 : KVStore) (post2 : List Guard),
      e2.getGuardsForKey key = pre ++ g :: post2 →
      e2.simulateWrite key value = e.simulateWrite key value) := by
  have hclosed : ∀ (e3 : KVStore) (post3 : List Guard),
      e3.getGuardsForKey key = pre ++ g :: post3 →
      e3.simulateWrite key value =
        { initEval key value with
            result := .reject
            reason := (g.evaluate value).2
            triggeredGuards := coNames value pre ++ [g.name] } := by
    intro e3 post3 h3
    unfold KVStore.simulateWrite
    rw [h3]
    have hne : ((pre ++ g :: post3).isEmpty) = false := by simp
    simp only [hne, Bool.false_eq_true, if_false]
    rw [simLoop_reject value g hg pre post3 (initEval key value) true [] hpre]
    simp [initEval]
  have hmain := hclosed e post happ
  refine ⟨?_, ?_, ?_, ?_, ?_⟩
  · rw [hmain]
  · rw [hmain]
  · rw [hmain]
    simp [initEval]
  · rw [hmain]
  · intro e2 post2 h2
    rw [hclosed e2 post2 h2, hmain]

/-- Witness for the amended C5 at the demo engine: enum guard (prefix,
counter-offers), then range guard (rejects `abc`). -/
theorem simulateWrite_reject_shortCircuit_witness :
    (demoGuardKV.simulateWrite "k" "abc").result = .reject
  ∧ (demoGuardKV.simulateWrite "k" "abc").reason =
      (demoRangeGuard.evaluate "abc").2
  ∧ (demoGuardKV.simulateWrite "k" "abc").alternatives = []
  ∧ (demoGuardKV.simulateWrite "k" "abc").triggeredGuards =
      coNames "abc" [demoEnumGuard] ++ [demoRangeGuard.name] := by
  have h := simulateWrite_reject_shortCircuit demoGuardKV "k" "abc"
    [demoEnumGuard] [] demoRangeGuard (by decide) (by decide) (by decide)
  exact ⟨h.1, h.2.1, h.2.2.1, h.2.2.2.1⟩

/-! ## Unfolding lemmas for the mutating operations -/

/-- Reading back the key just updated. -/
theorem storeSet_self (s : Store) (k : String) (l : List Version) :
    storeSet s k l k = l := by
  simp [storeSet]

/-- Reading a different key after an update. -/
theorem storeSet_other (s : Store) (k : String) (l : List Version)
    (k2 : String) (h : k2 ≠ k) : storeSet s k l k2 = s k2 := by
  simp [storeSet, h]

/-- Two successive updates of the same key collapse to the second. -/
theorem storeSet_storeSet (s : Store) (k : String) (l1 l2 : List Version) :
    storeSet (storeSet s k l1) k l2 = storeSet s k l2 := by
  funext k2
  by_cases h : k2 = k <;> simp [storeSet, h]

/-- The `KVStore::set` in one step: OK status, WAL record appended when logging
is on, the stamped version appended and retention applied on the key. -/
theorem set_unfold (e : KVStore) (io : Bool) (now : Int) (k v : String) :
    e.set io now k v =
      (.ok, { e with
        wal := if e.walEnabled ∧ e.wal.enabled then (e.wal.logSet io k v now).2
               else e.wal
        store := storeSet e.store k
          (applyRetentionList e.retentionPolicy now
            (e.store k ++ [⟨now, v⟩])) }) := by
  unfold KVStore.set KVStore.applyRetention
  by_cases hc : e.walEnabled ∧ e.wal.enabled
  · simp only [if_pos hc, storeSet_self, storeSet_storeSet]
    simp
  · simp only [if_neg hc, storeSet_self, storeSet_storeSet]
    simp

/-- The `KVStore::setAtTime` in one step: OK status, no WAL write, the version
appended with the supplied timestamp and retention applied on the key. -/
theorem setAtTime_unfold (e : KVStore) (k v : String) (ts now : Int) :
    e.setAtTime k v ts now =
      (.ok, { e with
        store := storeSet e.store k
          (applyRetentionList e.retentionPolicy now
            (e.store k ++ [⟨ts, v⟩])) }) := by
  unfold KVStore.setAtTime KVStore.applyRetention
  simp only [storeSet_self, storeSet_storeSet]
  simp

/-- The `KVStore::del` in one step: NOT_FOUND on an absent key; otherwise OK,
the WAL record appended when logging is on, and the key's versions erased. -/
theorem del_unfold (e : KVStore) (io : Bool) (k : String) :
    e.del io k =
      if (e.store k).isEmpty then (.notFound, e)
      else (.ok, { e with
        wal := if e.walEnabled ∧ e.wal.enabled then (e.wal.logDel io k).2
               else e.wal
        store := storeSet e.store k [] }) := by
  unfold KVStore.del
  by_cases he : (e.store k).isEmpty
  · simp [he]
  · by_cases hc : e.walEnabled ∧ e.wal.enabled
    · simp [he, hc]
    · simp [he, hc]

/-- The `KVStore::setDecisionPolicy` in one step: the policy updated and the
record appended when logging is on. -/
theorem setDecisionPolicy_unfold (e : KVStore) (io : Bool) (p : DecisionPolicy) :
    e.setDecisionPolicy io p =
      { e with decisionPolicy := p
               wal := if e.walEnabled ∧ e.wal.enabled then
                        (e.wal.logPolicy io (policyName p)).2
                      else e.wal } := by
  unfold KVStore.setDecisionPolicy
  by_cases hc : e.walEnabled ∧ e.wal.enabled
  · simp only [if_pos hc]
  · simp only [if_neg hc]

/-! ## C6: a failed WAL write never aborts the mutation -/

/-- C6 counterexample: on an I/O failure during a record write, `logSet`
returns ERROR but the WAL does NOT transition to the disabled state — its
`enabled` flag is still true afterwards (only `initialize` and `clearLog`
failures disable the WAL). -/
theorem wal_not_disabled_on_ioError_cx :
    (demoWAL.logSet true "k" "v" 0).1 = .error
  ∧ (demoWAL.logSet true "k" "v" 0).2.enabled = true := by
  decide

/-- C6 (amended): an I/O failure during a WAL record write (`SET`, `DEL` or
`POLICY SET`) makes the write return ERROR and leaves the WAL state —
including its `enabled` flag — unchanged; the in-memory mutation that
triggered the write still completes normally (`set` returns OK and appends
the version, `del` on a present key returns OK and erases it), with the WAL
untouched. -/
theorem walWrite_error_mutation_completes (e : KVStore) (now : Int)
    (key value pname : String)
    (hen : e.wal.enabled = true) (hopen : e.wal.fileOpen = true)
    (hwe : e.walEnabled = true) :
    e.wal.logSet true key value now = (.error, e.wal)
  ∧ e.wal.logDel true key = (.error, e.wal)
  ∧ e.wal.logPolicy true pname = (.error, e.wal)
  ∧ (e.set true now key value).1 = .ok
  ∧ (e.set true now key value).2.store key =
      applyRetentionList e.retentionPolicy now (e.store key ++ [⟨now, value⟩])
  ∧ (e.set true now key value).2.wal = e.wal
  ∧ ((e.store key).isEmpty = false →
      (e.del true key).1 = .ok
      ∧ (e.del true key).2.store key = []
      ∧ (e.del true key).2.wal = e.wal) := by
  have hlogset : e.wal.logSet true key value now = (.error, e.wal) := by
    simp [WALState.logSet, hen, hopen]
  have hlogdel : e.wal.logDel true key = (.error, e.wal) := by
    simp [WALState.logDel, hen, hopen]
  have hlogpol : e.wal.logPolicy true pname = (.error, e.wal) := by
    simp [WALState.logPolicy, hen, hopen]
  have hc : e.walEnabled ∧ e.wal.enabled := ⟨hwe, hen⟩
  refine ⟨hlogset, hlogdel, hlogpol, ?_, ?_, ?_, ?_⟩
  · rw [set_unfold]
  · rw [set_unfold]
    exact storeSet_self _ _ _
  · rw [set_unfold]
    simp [hc, hlogset]
  · intro hne
    rw [del_unfold]
    simp [hne, hc, hlogdel, storeSet_self]

/-- Witness for the amended C6 at a concrete healthy engine. -/
theorem walWrite_error_mutation_completes_witness :
    demoWalKV.wal.logSet true "k" "v" 7 = (.error, demoWalKV.wal)
  ∧ (demoWalKV.set true 7 "k" "v").1 = .ok
  ∧ (demoWalKV.del true "k").1 = .ok := by
  have h := walWrite_error_mutation_completes demoWalKV 7 "k" "v" "STRICT"
    (by decide) (by decide) (by decide)
  exact ⟨h.1, h.2.2.2.1, (h.2.2.2.2.2.2 (by decide)).1⟩

/-! ## C3: non-decreasing timestamps per key -/

/-- Appending a version no older than everything in a sorted history keeps
it sorted. -/
theorem pairwise_append_ts (l : List Version) (x : Version)
    (h : l.Pairwise tsLE) (hx : ∀ w ∈ l, w.timestamp ≤ x.timestamp) :
    (l ++ [x]).Pairwise tsLE := by
  rw [List.pairwise_append]
  refine ⟨h, List.pairwise_singleton _ _, ?_⟩
  intro a ha b hb
  rw [List.mem_singleton] at hb
  subst hb
  exact hx a ha

/-- C3 counterexample: `setAt` (the replay entry point, one of the
operations the claim quantifies over) with a timestamp below the key's last
version produces a history whose timestamps are NOT non-decreasing.  This
state is reached by recovery itself whenever a snapshot entry (stamped with
the recovery-time clock) is followed by a WAL record carrying its older
logged timestamp. -/
theorem history_timestamps_unsorted_cx :
    ¬ ((((((KVStore.fresh []).setAtTime "k" "a" 10 0).2).setAtTime "k" "b" 5 0).2.store "k").Pairwise
        tsLE) := by
  decide

/-- C3 (amended): the per-key non-decreasing-timestamp invariant is
preserved by every operation of the claim provided each append carries a
timestamp at or after everything already in that key's history: `set` when
the clock reads no earlier than the key's versions, `setAt` when the
supplied timestamp does, and `del`, per-key retention and retention policy
changes unconditionally.  (Without that proviso — arbitrary `setAt`
timestamps, or snapshot-then-WAL recovery — the invariant can be broken, as
the counterexample shows.) -/
theorem history_sorted_preserved (e : KVStore) (now ts : Int)
    (k rk : String) (v : String) (pol : RetentionPolicy)
    (hinv : ∀ k2, (e.store k2).Pairwise tsLE) :
    ((∀ w ∈ e.store k, w.timestamp ≤ now) →
      ∀ k2, (((e.set false now k v).2).store k2).Pairwise tsLE)
  ∧ ((∀ w ∈ e.store k, w.timestamp ≤ ts) →
      ∀ k2, (((e.setAtTime k v ts now).2).store k2).Pairwise tsLE)
  ∧ (∀ k2, (((e.del false k).2).store k2).Pairwise tsLE)
  ∧ (∀ k2, ((e.applyRetention now rk).store k2).Pairwise tsLE)
  ∧ (∀ k2, ((e.setRetentionPolicy pol now).store k2).Pairwise tsLE) := by
  refine ⟨?_, ?_, ?_, ?_, ?_⟩
  · intro hle k2
    rw [set_unfold]
    dsimp only
    by_cases h2 : k2 = k
    · subst h2
      rw [storeSet_self]
      exact applyRetentionList_pairwise _ _ _
        (pairwise_append_ts _ _ (hinv k2) hle)
    · rw [storeSet_other _ _ _ _ h2]
      exact hinv k2
  · intro hle k2
    rw [setAtTime_unfold]
    dsimp only
    by_cases h2 : k2 = k
    · subst h2
      rw [storeSet_self]
      exact applyRetentionList_pairwise _ _ _
        (pairwise_append_ts _ _ (hinv k2) hle)
    · rw [storeSet_other _ _ _ _ h2]
      exact hinv k2
  · intro k2
    rw [del_unfold]
    by_cases he : (e.store k).isEmpty
    · simp only [he, if_true]
      exact hinv k2
    · simp only [he, Bool.false_eq_true, if_false]
      by_cases h2 : k2 = k
      · subst h2
        rw [storeSet_self]
        exact List.Pairwise.nil
      · rw [storeSet_other _ _ _ _ h2]
        exact hinv k2
  · intro k2
    unfold KVStore.applyRetention
    by_cases he : (e.store rk).isEmpty
    · simp only [he, if_true]
      exact hinv k2
    · simp only [he, Bool.false_eq_true, if_false]
      by_cases h2 : k2 = rk
      · subst h2
        rw [storeSet_self]
        exact applyRetentionList_pairwise _ _ _ (hinv k2)
      · rw [storeSet_other _ _ _ _ h2]
        exact hinv k2
  · intro k2
    exact applyRetentionList_pairwise _ _ _ (hinv k2)

/-- Witness for the amended C3 at the demo sorted engine. -/
theorem history_sorted_preserved_witness :
    (((demoSortedKV.set false 400 "p" "v").2).store "p").Pairwise tsLE
  ∧ (((demoSortedKV.del false "p").2).store "p").Pairwise tsLE := by
  have hinv : ∀ k2, (demoSortedKV.store k2).Pairwise tsLE := by
    intro k2
    by_cases h : k2 = "p"
    · subst h
      decide
    · simp [demoSortedKV, KVStore.fresh, storeSet, h]
  have h := history_sorted_preserved demoSortedKV 400 400 "p" "p" "v"
    ⟨.lastN, 2, 0⟩ hinv
  exact ⟨h.1 (by decide) "p", h.2.2.1 "p"⟩

/-! ## C1: recovery rebuilds the store and policy of the original run -/

/-- The WAL policy names written by the engine parse back to the policies
they name. -/
theorem parsePolicy_policyName (p : DecisionPolicy) :
    parsePolicy (policyName p) = some p := by
  cases p <;> decide

/-- Phase-1 replay over concatenated record lists composes. -/
theorem phaseAPolicy_append (p0 : DecisionPolicy) (l1 l2 : List WalRecord) :
    phaseAPolicy p0 (l1 ++ l2) = phaseAPolicy (phaseAPolicy p0 l1) l2 := by
  induction l1 generalizing p0 with
  | nil => rfl
  | cons r rest ih =>
      cases r with
      | set k v ms => exact ih p0
      | del k => exact ih p0
      | policy name => exact ih _

/-- Phase-2 replay over concatenated record lists composes. -/
theorem phaseBStore_append (s : Store) (l1 l2 : List WalRecord) :
    phaseBStore s (l1 ++ l2) = phaseBStore (phaseBStore s l1) l2 := by
  induction l1 generalizing s with
  | nil => rfl
  | cons r rest ih =>
      cases r with
      | set k v ms => exact ih _
      | del k => exact ih _
      | policy name => exact ih _

/-- Phase-1 WAL replay on the engine, with logging off, only rewrites the
decision policy — by exactly `phaseAPolicy`. -/
theorem walPolicyFold (recs : List WalRecord) (e : KVStore)
    (hwe : e.walEnabled = false) :
    recs.foldl walPolicyStep e =
      { e with decisionPolicy := phaseAPolicy e.decisionPolicy recs } := by
  induction recs generalizing e with
  | nil => rfl
  | cons r recs ih =>
      cases r with
      | set k v ms => exact ih e hwe
      | del k => exact ih e hwe
      | policy name =>
          show recs.foldl walPolicyStep (walPolicyStep e (.policy name)) = _
          cases hp : parsePolicy name with
          | none =>
              have hstep : walPolicyStep e (.policy name) = e := by
                simp [walPolicyStep, hp]
              rw [hstep, ih e hwe]
              have : phaseAPolicy e.decisionPolicy (WalRecord.policy name :: recs) =
                  phaseAPolicy e.decisionPolicy recs := by
                show phaseAPolicy ((parsePolicy name).getD e.decisionPolicy) recs = _
                rw [hp]
                rfl
              rw [this]
          | some p =>
              have hstep : walPolicyStep e (.policy name) =
                  { e with decisionPolicy := p } := by
                simp [walPolicyStep, hp, setDecisionPolicy_unfold, hwe]
              rw [hstep]
              refine (ih { e with decisionPolicy := p } hwe).trans ?_
              have h2 : phaseAPolicy e.decisionPolicy (WalRecord.policy name :: recs) =
                  phaseAPolicy p recs := by
                show phaseAPolicy ((parsePolicy name).getD e.decisionPolicy) recs = _
                rw [hp]
                rfl
              rw [h2]

/-- Phase-2 WAL replay on the engine, with logging off and default
retention, only rewrites the store — by exactly `phaseBStore`. -/
theorem walDataFold (recs : List WalRecord) (e : KVStore) (now : Int)
    (hwe : e.walEnabled = false) (hrp : e.retentionPolicy = .init) :
    recs.foldl (walDataStep now) e = { e with store := phaseBStore e.store recs } := by
  induction recs generalizing e with
  | nil => rfl
  | cons r recs ih =>
      cases r with
      | set k v ms =>
          show recs.foldl (walDataStep now) ((e.setAtTime k v ms now).2) = _
          rw [setAtTime_unfold]
          dsimp only
          rw [hrp, applyRetentionList_init]
          exact ih _ hwe rfl
      | del k =>
          show recs.foldl (walDataStep now)
            (if k = "" then e else (e.del false k).2) = _
          by_cases hk : k = ""
          · rw [if_pos hk]
            rw [ih e hwe hrp]
            subst hk
            rfl
          · rw [if_neg hk]
            rw [del_unfold]
            have hnc : ¬(e.walEnabled ∧ e.wal.enabled) := by
              intro hc
              rw [hwe] at hc
              exact Bool.false_ne_true hc.1
            by_cases he : (e.store k).isEmpty
            · rw [if_pos he]
              rw [ih e hwe hrp]
              have hss : storeSet e.store k [] = e.store := by
                funext k2
                by_cases h2 : k2 = k
                · subst h2
                  rw [storeSet_self, List.isEmpty_iff.mp he]
                · exact storeSet_other _ _ _ _ h2
              show _ = { e with store := phaseBStore (if k = "" then e.store
                else storeSet e.store k []) recs }
              rw [if_neg hk, hss]
            · rw [if_neg he]
              dsimp only
              rw [if_neg hnc]
              refine (ih { e with wal := e.wal, store := storeSet e.store k [] }
                hwe hrp).trans ?_
              show _ = { e with store := phaseBStore (if k = "" then e.store
                else storeSet e.store k []) recs }
              rw [if_neg hk]
      | policy name =>
          show recs.foldl (walDataStep now) e = _
          exact ih e hwe hrp

/-- A fresh engine with an empty WAL satisfies the run invariant. -/
theorem goodRun_fresh : GoodRun (KVStore.fresh []) :=
  ⟨rfl, rfl, rfl, rfl, rfl, rfl⟩

/-- Each fault-free `SET`/`DEL`/`POLICY SET` operation preserves the run
invariant: the record it appends to the WAL replays to exactly the change
it made in memory. -/
theorem goodRun_step (e : KVStore) (op : Op) (hok : Op.keysOk op = true)
    (h : GoodRun e) : GoodRun (Op.apply e op) := by
  obtain ⟨hwe, hen, hopen, hrp, hstore, hpol⟩ := h
  have hc : e.walEnabled ∧ e.wal.enabled := ⟨hwe, hen⟩
  cases op with
  | set now k v =>
      show GoodRun (e.set false now k v).2
      rw [set_unfold]
      rw [if_pos hc]
      have hlog : (e.wal.logSet false k v now).2 =
          { e.wal with records := e.wal.records ++ [.set k v now] } := by
        simp [WALState.logSet, hen, hopen]
      rw [hlog]
      refine ⟨hwe, hen, hopen, hrp, ?_, ?_⟩
      · show phaseBStore (fun _ => []) (e.wal.records ++ [.set k v now]) = _
        rw [phaseBStore_append, hstore]
        show storeSet e.store k (e.store k ++ [⟨now, v⟩]) = _
        rw [hrp, applyRetentionList_init]
      · show phaseAPolicy .safeDefault (e.wal.records ++ [.set k v now]) = _
        rw [phaseAPolicy_append, hpol]
        rfl
  | del k =>
      show GoodRun (e.del false k).2
      rw [del_unfold]
      by_cases he : (e.store k).isEmpty
      · rw [if_pos he]
        exact ⟨hwe, hen, hopen, hrp, hstore, hpol⟩
      · rw [if_neg he]
        rw [if_pos hc]
        have hlog : (e.wal.logDel false k).2 =
            { e.wal with records := e.wal.records ++ [.del k] } := by
          simp [WALState.logDel, hen, hopen]
        rw [hlog]
        have hk : ¬(k = "") := by
          intro hkk
          rw [hkk] at hok
          exact Bool.false_ne_true hok
        refine ⟨hwe, hen, hopen, hrp, ?_, ?_⟩
        · show phaseBStore (fun _ => []) (e.wal.records ++ [.del k]) = _
          rw [phaseBStore_append, hstore]
          show phaseBStore (if k = "" then e.store else storeSet e.store k []) [] = _
          rw [if_neg hk]
          rfl
        · show phaseAPolicy .safeDefault (e.wal.records ++ [.del k]) = _
          rw [phaseAPolicy_append, hpol]
          rfl
  | setPolicy p =>
      show GoodRun (e.setDecisionPolicy false p)
      rw [setDecisionPolicy_unfold]
      rw [if_pos hc]
      have hlog : (e.wal.logPolicy false (policyName p)).2 =
          { e.wal with records := e.wal.records ++ [.policy (policyName p)] } := by
        simp [WALState.logPolicy, hen, hopen]
      rw [hlog]
      refine ⟨hwe, hen, hopen, hrp, ?_, ?_⟩
      · show phaseBStore (fun _ => []) (e.wal.records ++ [.policy (policyName p)]) = _
        rw [phaseBStore_append, hstore]
        rfl
      · show phaseAPolicy .safeDefault (e.wal.records ++ [.policy (policyName p)]) = _
        rw [phaseAPolicy_append, hpol]
        show phaseAPolicy ((parsePolicy (policyName p)).getD e.decisionPolicy) [] = _
        rw [parsePolicy_policyName]
        rfl

/-- The run invariant holds after any fault-free operation sequence with
sane keys. -/
theorem run_good (ops : List Op) (e : KVStore) (hok : ops.all Op.keysOk = true)
    (h : GoodRun e) : GoodRun (run e ops) := by
  induction ops generalizing e with
  | nil => exact h
  | cons op ops ih =>
      rw [List.all_cons, Bool.and_eq_true] at hok
      exact ih (Op.apply e op) hok.2 (goodRun_step e op hok.1 h)

/-- Recovery with no snapshot computes exactly the two replay folds: the
store is the phase-2 replay of the WAL from empty, the policy the phase-1
replay from the default. -/
theorem recover_empty_snapshot (recs : List WalRecord) (now : Int) :
    (recover [] recs now).store = phaseBStore (fun _ => []) recs
  ∧ (recover [] recs now).decisionPolicy = phaseAPolicy .safeDefault recs := by
  unfold recover
  simp only [List.isEmpty_nil, if_true]
  by_cases hr : recs.isEmpty
  · rw [if_pos hr]
    have : recs = [] := List.isEmpty_iff.mp hr
    subst this
    exact ⟨rfl, rfl⟩
  · rw [if_neg hr]
    rw [walPolicyFold recs _ rfl]
    rw [walDataFold recs _ now rfl rfl]
    exact ⟨rfl, rfl⟩

/-- C1: for every fault-free sequence of `SET`, `DEL` and `POLICY SET`
operations from the empty engine with the WAL enabled, recovering a fresh
engine from the WAL it produced (no snapshot is present: the sequence never
snapshots) — two-phase replay, all `POLICY SET` records first, then the
data records with their logged timestamps — reproduces every `getAt` answer
(in particular at every (key, timestamp) pair of the original history) and
the decision policy of the engine just before shutdown. -/
theorem recovery_preserves_state (ops : List Op) (now : Int)
    (hok : ops.all Op.keysOk = true) :
    (∀ k t, (recover [] (run (KVStore.fresh []) ops).wal.records now).getAtTime k t
          = (run (KVStore.fresh []) ops).getAtTime k t)
  ∧ (recover [] (run (KVStore.fresh []) ops).wal.records now).decisionPolicy
      = (run (KVStore.fresh []) ops).decisionPolicy := by
  obtain ⟨hwe, hen, hopen, hrp, hstore, hpol⟩ :=
    run_good ops (KVStore.fresh []) hok goodRun_fresh
  have hrec := recover_empty_snapshot (run (KVStore.fresh []) ops).wal.records now
  constructor
  · intro k t
    unfold KVStore.getAtTime
    rw [hrec.1, hstore]
  · rw [hrec.2, hpol]

/-- Witness for C1 at the demo operation sequence, sampled at the pair
(`k`, 150) present in the original history. -/
theorem recovery_preserves_state_witness :
    (recover [] (run (KVStore.fresh []) demoOps).wal.records 999).getAtTime "k" 150
      = (run (KVStore.fresh []) demoOps).getAtTime "k" 150
  ∧ (recover [] (run (KVStore.fresh []) demoOps).wal.records 999).decisionPolicy
      = (run (KVStore.fresh []) demoOps).decisionPolicy :=
  ⟨(recovery_preserves_state demoOps 999 (by decide)).1 "k" 150,
   (recovery_preserves_state demoOps 999 (by decide)).2⟩

end SentinelDB
